import Mathlib

/-!
Verification development for the WiZ controller core
(`wiz_controller/app.py`): UDP transport, discovery, and the fade
(transition) engine.  Pure functions of the source are embedded as Lean
functions; the effectful receive loop is embedded as a function over an
explicit list of inbound network events; the Tk timer machinery used by
the fade engine is embedded as an explicit event-loop state machine.
Python exceptions are embedded as `Except`: an uncaught exception is an
`.error` result.
-/

/-- Decoded JSON value, as produced by `json.loads`.  Numbers are
modelled as integers (the protocol payloads relevant here carry integer
fields). -/
inductive JVal where
  | null : JVal
  | bool : Bool → JVal
  | num : Int → JVal
  | str : String → JVal
  | arr : List JVal → JVal
  | obj : List (String × JVal) → JVal

/-- Object fields of a decoded JSON object (a Python dict with string
keys, in insertion order, keys unique). -/
abbrev JObj := List (String × JVal)

/-- Python dict lookup `d.get(k)` on an object: first matching key. -/
def lookupJ : JObj → String → Option JVal
  | [], _ => none
  | (k, v) :: rest, key => if k = key then some v else lookupJ rest key

/-- Python dict assignment `d[k] = v`: replace the value of an existing
key in place, otherwise append the new key at the end. -/
def objSet : JObj → String → JVal → JObj
  | [], k, v => [(k, v)]
  | (k0, v0) :: rest, k, v =>
      if k0 = k then (k0, v) :: rest else (k0, v0) :: objSet rest k v

/-- Python truthiness of a JSON value (`if msg.get("result"):`). -/
def truthy : JVal → Bool
  | .null => false
  | .bool b => b
  | .num n => n != 0
  | .str s => s != ""
  | .arr xs => !xs.isEmpty
  | .obj fs => !fs.isEmpty

/-- Truthiness of `d.get(k)`: a missing key yields `None`, which is
falsy. -/
def truthyO : Option JVal → Bool
  | none => false
  | some v => truthy v

/-- One inbound network event seen by a blocking `recvfrom`: either the
socket timeout fires, or a datagram arrives from sender address `ip`
whose payload `json.loads` either decodes (`.ok`) or rejects
(`.error`, carrying the `JSONDecodeError` message). -/
inductive RecvEvent where
  | timeout : RecvEvent
  | datagram : String → Except String JVal → RecvEvent

/-- Embedding of `_send(ip, payload, wait_ack)` (app.py lines 33-45),
restricted to what happens after the datagram is sent: the function
returns `resp`.  With `wait_ack=False` it returns `None` at once.  With
`wait_ack=True` it blocks for one receive event: a socket timeout is
caught (`except socket.timeout: pass`) and `None` is returned; a
datagram is fed to `json.loads`, whose decode failure is an uncaught
exception (only `socket.timeout` is handled). -/
def sendModel (wait_ack : Bool) (ev : RecvEvent) : Except String (Option JVal) :=
  if wait_ack then
    match ev with
    | .timeout => .ok none
    | .datagram _ (.ok v) => .ok (some v)
    | .datagram _ (.error e) => .error e
  else
    .ok none

/-- Body of the `discover` receive loop for one datagram (app.py lines
21-26): decode the payload, and if `msg.get("result")` is truthy, stamp
the sender address into the result object under `"_ip"` and append it
to `found`.  A decode failure propagates (only `socket.timeout` is
caught); `msg.get` on a non-object raises `AttributeError`;
`info["_ip"] = ...` on a truthy non-object result raises `TypeError`. -/
def processDatagram (ip : String) (decoded : Except String JVal)
    (found : List JObj) : Except String (List JObj) :=
  match decoded with
  | .error e => .error e
  | .ok msg =>
      match msg with
      | .obj fields =>
          match lookupJ fields "result" with
          | some info =>
              if truthy info then
                match info with
                | .obj infoFields =>
                    .ok (found ++ [objSet infoFields "_ip" (.str ip)])
                | _ => .error "TypeError"
              else .ok found
          | none => .ok found
      | _ => .error "AttributeError"

/-- The `discover` receive loop (app.py lines 18-29) over an explicit
list of inbound events: a timeout breaks the loop; exhausting the list
models the wall-clock budget `time.time() - t0 < timeout` expiring. -/
def discoverLoop : List RecvEvent → List JObj → Except String (List JObj)
  | [], found => .ok found
  | .timeout :: _, found => .ok found
  | .datagram ip decoded :: rest, found =>
      match processDatagram ip decoded found with
      | .error e => .error e
      | .ok found2 => discoverLoop rest found2

/-- Python dict insertion used by the comprehension
`{b["_ip"]: b for b in found}`: re-assigning an existing key keeps its
position and replaces its value; a new key is appended. -/
def dictInsert : List (String × JObj) → String → JObj → List (String × JObj)
  | [], k, v => [(k, v)]
  | (k0, v0) :: rest, k, v =>
      if k0 = k then (k0, v) :: rest else (k0, v0) :: dictInsert rest k v

/-- The dedup key `b["_ip"]` of a collected descriptor.  Every element
of `found` is stamped with `"_ip" ↦ str ip` by the loop, so the key is
that string. -/
def ipOf (b : JObj) : String :=
  match lookupJ b "_ip" with
  | some (.str s) => s
  | _ => ""

/-- Deduplication step of `discover` (app.py line 31):
`list({b["_ip"]: b for b in found}.values())`. -/
def dedupeByIp (found : List JObj) : List JObj :=
  (found.foldl (fun d b => dictInsert d (ipOf b) b) []).map Prod.snd

/-- Full embedding of `discover` over an inbound event list: collect
replies, then deduplicate by address. -/
def discoverModel (events : List RecvEvent) : Except String (List JObj) :=
  match discoverLoop events [] with
  | .error e => .error e
  | .ok found => .ok (dedupeByIp found)

/-! ## Fade engine (`WizApp._fade_to`, app.py lines 440-493) -/

/-- A fully resolved light state: the five fields the fade engine
interpolates (`dimming`, `temp`, `r`, `g`, `b`), all integers. -/
structure Pilot where
  dimming : Int
  temp : Int
  r : Int
  g : Int
  b : Int
deriving DecidableEq

/-- Name of one of the five interpolated fields. -/
inductive FadeField where
  | dimming | temp | r | g | b
deriving DecidableEq

/-- Projection of a `Pilot` at a named field. -/
def Pilot.fld (p : Pilot) : FadeField → Int
  | .dimming => p.dimming
  | .temp => p.temp
  | .r => p.r
  | .g => p.g
  | .b => p.b

/-- JSON key of a field, as used in `target_params.get(...)` and in the
`getPilot` reply. -/
def FadeField.key : FadeField → String
  | .dimming => "dimming"
  | .temp => "temp"
  | .r => "r"
  | .g => "g"
  | .b => "b"

/-- Extraction of one baseline field, `cur_pilot.get(key, cached)`
(app.py lines 453-457): the device-reported value when the key is
present (a non-integer value there would poison the later arithmetic,
embedded as an error), else the locally cached UI value. -/
def pilotField (cur_pilot : JObj) (key : String) (cached : Int) :
    Except String Int :=
  match lookupJ cur_pilot key with
  | none => .ok cached
  | some (.num n) => .ok n
  | some _ => .error "TypeError"

/-- Baseline resolution (app.py lines 450-458):
`current = get_state(ip) or {}` then `cur_pilot = current.get("result", {})`
then one `cur_pilot.get(field, cached_value)` per field.  `reply` is the
value returned by `get_state` (`none` on timeout); `cache` holds the
current UI values (`self.bri`, `self.tmp`, `self.r_var`, ...). -/
def resolveStart (reply : Option JVal) (cache : Pilot) :
    Except String Pilot :=
  let current : JVal :=
    match reply with
    | none => .obj []
    | some v => if truthy v then v else .obj []
  match current with
  | .obj currentFields =>
      let cur_pilot : JVal :=
        match lookupJ currentFields "result" with
        | none => .obj []
        | some v => v
      match cur_pilot with
      | .obj pf =>
          match pilotField pf "dimming" cache.dimming with
          | .error e => .error e
          | .ok d =>
          match pilotField pf "temp" cache.temp with
          | .error e => .error e
          | .ok t =>
          match pilotField pf "r" cache.r with
          | .error e => .error e
          | .ok rr =>
          match pilotField pf "g" cache.g with
          | .error e => .error e
          | .ok gg =>
          match pilotField pf "b" cache.b with
          | .error e => .error e
          | .ok bb => .ok ⟨d, t, rr, gg, bb⟩
      | _ => .error "AttributeError"
  | _ => .error "AttributeError"

/-- Endpoint resolution (app.py lines 459-465): for each field,
`target_params.get(key, start[key])`.  The caller-supplied
`target_params` dict carries integer values (presets and sliders). -/
def resolveEnd (target_params : List (String × Int)) (start : Pilot) :
    Pilot where
  dimming := ((target_params.lookup "dimming").getD start.dimming)
  temp := ((target_params.lookup "temp").getD start.temp)
  r := ((target_params.lookup "r").getD start.r)
  g := ((target_params.lookup "g").getD start.g)
  b := ((target_params.lookup "b").getD start.b)

/-- Step interval (app.py line 467): `max(1, duration_ms // steps)`
(Python floor division on the non-negative millisecond count). -/
def fadeInterval (duration_ms steps : Nat) : Nat :=
  max 1 (duration_ms / steps)

/-- Python `int()` applied to a real value: truncation toward zero. -/
noncomputable def pyInt (x : ℝ) : Int :=
  if 0 ≤ x then ⌊x⌋ else ⌈x⌉

/-- Ease-in-out weight at step `i` of `steps` (app.py lines 471-472):
`alpha = i / steps`, `eased = 0.5 - 0.5 * math.cos(math.pi * alpha)`. -/
noncomputable def eased (steps i : Nat) : ℝ :=
  1 / 2 - 1 / 2 * Real.cos (Real.pi * ((i : ℝ) / (steps : ℝ)))

/-- One interpolated field at step `i`:
`int(start + (end - start) * eased)` (app.py lines 474-478). -/
noncomputable def interpField (s e : Int) (steps i : Nat) : Int :=
  pyInt ((s : ℝ) + ((e : ℝ) - (s : ℝ)) * eased steps i)

/-- The full interpolated state `cur` sent at step `i` (app.py lines
473-479): each of the five fields interpolated independently. -/
noncomputable def stepPilot (start endp : Pilot) (steps i : Nat) : Pilot where
  dimming := interpField start.dimming endp.dimming steps i
  temp := interpField start.temp endp.temp steps i
  r := interpField start.r endp.r steps i
  g := interpField start.g endp.g steps i
  b := interpField start.b endp.b steps i

/-- The timer chain of `step` (app.py lines 470-493) run to completion
without preemption, recorded as the list of `(step index, firing time)`
pairs: `step(0)` runs immediately at time `t`; while `i < steps` the
next step is scheduled `interval` later (`self.after(interval, ...)`). -/
def stepChain (steps interval : Nat) (i t : Nat) : List (Nat × Nat) :=
  (i, t) :: (if _h : i < steps then stepChain steps interval (i + 1) (t + interval) else [])
termination_by steps - i
decreasing_by omega

/-- All steps issued by an unpreempted fade, with their firing times,
starting from `step(0)` at time 0. -/
def fadeRun (steps interval : Nat) : List (Nat × Nat) :=
  stepChain steps interval 0 0

/-! ## Tk timer machinery for preemption (C1)

`_fade_to` drives its plan through `self.after` / `self.after_cancel` /
`self._fade_job` on the single-threaded Tk event loop.  We model the
loop state explicitly: scheduled timers (`after` callbacks not yet
fired), the `_fade_job` handle, a fresh-id counter, and a log of the
`pilot(...)` sends performed by executed steps.  Plans are identified by
a number; each fade call uses a fresh closure, i.e. a plan id distinct
from all earlier ones. -/

/-- A scheduled `after` callback of the fade engine: its Tk id, the plan
(fade invocation) it belongs to, the step index it will execute, and
that plan's total step count (captured in the closure). -/
structure Job where
  id : Nat
  plan : Nat
  stepIdx : Nat
  steps : Nat
deriving DecidableEq

/-- Event-loop state: pending fade timers, `self._fade_job`, the next
fresh timer id, and the chronological log of `(plan, step index)` sends
issued by executed steps. -/
structure TkState where
  pending : List Job
  fadeJob : Option Nat
  nextId : Nat
  sent : List (Nat × Nat)
deriving DecidableEq

/-- The preemption prologue of `_fade_to` (app.py lines 446-448):
`if self._fade_job: self.after_cancel(self._fade_job); self._fade_job = None`.
`after_cancel` removes the timer with that id from the pending set. -/
def cancelPending (s : TkState) : TkState :=
  match s.fadeJob with
  | none => s
  | some j =>
      { s with pending := s.pending.filter (fun jb => jb.id ≠ j),
               fadeJob := none }

/-- Executing the body of `step(i)` for plan `p` with step count `N`
(app.py lines 470-491): issue the `pilot` send for step `i`, then if
`i < N` schedule `step(i+1)` via `self.after` and store its id in
`self._fade_job`, else clear `self._fade_job`. -/
def runStep (p N i : Nat) (s : TkState) : TkState :=
  let s1 := { s with sent := s.sent ++ [(p, i)] }
  if i < N then
    { s1 with pending := s1.pending ++ [⟨s1.nextId, p, i + 1, N⟩],
              fadeJob := some s1.nextId,
              nextId := s1.nextId + 1 }
  else
    { s1 with fadeJob := none }

/-- `_fade_to` for a new plan `p` with step count `N`: cancel any
pending step of the old plan, then run `step(0)` synchronously
(app.py line 493).  The blocking `get_state` call and the baseline
computation in between do not touch the timer state. -/
def fadeTo (p N : Nat) (s : TkState) : TkState :=
  runStep p N 0 (cancelPending s)

/-- One turn of the Tk event loop delivering a due fade timer: the
timer is removed from the pending set and its captured `step(i)` body
runs.  With nothing pending the state is unchanged. -/
def fireTimer (s : TkState) : TkState :=
  match s.pending with
  | [] => s
  | jb :: rest => runStep jb.plan jb.steps jb.stepIdx { s with pending := rest }

/-- Well-formedness maintained by the fade engine between event-loop
turns: at most one fade timer is pending, and `self._fade_job` holds
exactly its id. -/
def TkInv (s : TkState) : Prop :=
  match s.pending with
  | [] => True
  | [jb] => s.fadeJob = some jb.id
  | _ => False

/-! ## Helper lemmas -/

/-- Looking up the key just written by `objSet` yields the new value. -/
theorem lookupJ_objSet_self (fs : JObj) (k : String) (v : JVal) :
    lookupJ (objSet fs k v) k = some v := by
  induction fs with
  | nil => simp [objSet, lookupJ]
  | cons p rest ih =>
      obtain ⟨k0, v0⟩ := p
      by_cases h : k0 = k
      · simp [objSet, lookupJ, h]
      · simp [objSet, lookupJ, h, ih]

/-- Python `msg.get(k)` on a decoded JSON value: only objects have it. -/
def jsonGet : JVal → String → Option JVal
  | .obj fs, k => lookupJ fs k
  | _, _ => none

/-! ## C2: transport/discovery error handling -/

/-- C2 counterexample: a datagram whose payload is not decodable as JSON
(here with decode error message "Expecting value", as raised for the
payload `hello`) makes `_send(..., wait_ack=True)` raise instead of
returning the no-reply result, and makes `discover` raise instead of
silently discarding the datagram: only `socket.timeout` is caught. -/
theorem transport_bad_json_raises :
    sendModel true (.datagram "192.168.1.50" (.error "Expecting value")) ≠
      .ok none ∧
    discoverModel [.datagram "192.168.1.50" (.error "Expecting value")] =
      .error "Expecting value" := by
  constructor
  · intro h
    exact Except.noConfusion h
  · rfl

/-- C2 (amended): a receive timeout is caught and surfaces as the
no-reply result in `_send` and as the end of collection in `discover`
(no exception); but an inbound datagram whose payload is not decodable
as JSON propagates the JSON decode exception out of both `_send` (with
`wait_ack=True`) and `discover`, instead of being treated as no
reply / discarded. -/
theorem transport_timeout_ok_bad_json_raises (ip e : String)
    (events : List RecvEvent) (found : List JObj) :
    sendModel true .timeout = .ok none ∧
    sendModel true (.datagram ip (.error e)) = .error e ∧
    discoverLoop (.timeout :: events) found = .ok found ∧
    discoverLoop (.datagram ip (.error e) :: events) found = .error e ∧
    discoverModel (.datagram ip (.error e) :: events) = .error e :=
  ⟨rfl, rfl, rfl, rfl, rfl⟩

/-! ## C10: discovery result-truthiness filter -/

/-- C10: processing one decoded datagram either leaves the collected
list unchanged — exactly when `msg.get("result")` is falsy (missing
key, `null`, `false`, `0`, empty string/array/object all alike) — or
appends exactly one descriptor, in which case the result payload is a
non-empty object and the descriptor is that payload stamped with the
sender address under `"_ip"`. -/
theorem discover_truthy_result_filter (ip : String) (msg : JVal)
    (found out : List JObj)
    (h : processDatagram ip (.ok msg) found = .ok out) :
    (truthyO (jsonGet msg "result") = false ∧ out = found) ∨
    (∃ fs, jsonGet msg "result" = some (.obj fs) ∧ fs ≠ [] ∧
      out = found ++ [objSet fs "_ip" (.str ip)] ∧
      lookupJ (objSet fs "_ip" (.str ip)) "_ip" = some (.str ip)) := by
  match msg with
  | .null | .bool _ | .num _ | .str _ | .arr _ =>
      exact absurd h (by simp [processDatagram])
  | .obj fields =>
      simp only [processDatagram] at h
      match hres : lookupJ fields "result" with
      | none =>
          rw [hres] at h
          left
          exact ⟨by simp [jsonGet, hres, truthyO], by
            simpa using h.symm⟩
      | some info =>
          rw [hres] at h
          by_cases ht : truthy info = true
          · simp only [ht, if_true] at h
            match info, ht with
            | .null, ht | .bool _, ht | .num _, ht | .str _, ht | .arr _, ht =>
                exact absurd h (by simp)
            | .obj infoFields, ht =>
                right
                refine ⟨infoFields, by simp [jsonGet, hres], ?_, ?_, ?_⟩
                · intro hnil
                  rw [hnil] at ht
                  simp [truthy] at ht
                · simpa using h.symm
                · exact lookupJ_objSet_self _ _ _
          · simp only [ht, if_false, Bool.false_eq_true] at h
            left
            refine ⟨by simp [jsonGet, hres, truthyO, ht], by simpa using h.symm⟩

/-- C10 witness: a concrete well-formed reply from `10.0.0.9` is
appended with its `"_ip"` stamp. -/
theorem discover_truthy_result_filter_witness :
    (truthyO (jsonGet (.obj [("result", .obj [("mac", .str "a8bb50")])]) "result")
        = false ∧
      ([[("mac", JVal.str "a8bb50"), ("_ip", JVal.str "10.0.0.9")]] :
        List JObj) = []) ∨
    (∃ fs, jsonGet (.obj [("result", .obj [("mac", .str "a8bb50")])]) "result"
        = some (.obj fs) ∧ fs ≠ [] ∧
      ([[("mac", JVal.str "a8bb50"), ("_ip", JVal.str "10.0.0.9")]] :
        List JObj) = [] ++ [objSet fs "_ip" (.str "10.0.0.9")] ∧
      lookupJ (objSet fs "_ip" (.str "10.0.0.9")) "_ip" =
        some (.str "10.0.0.9")) :=
  discover_truthy_result_filter "10.0.0.9"
    (.obj [("result", .obj [("mac", .str "a8bb50")])]) [] _ rfl

/-! ## C7: discovery deduplication -/

/-- A valid discovery reply datagram from address `p.1` whose decoded
payload is `{"result": {...p.2...}}`. -/
def replyEvent (p : String × JObj) : RecvEvent :=
  .datagram p.1 (.ok (.obj [("result", .obj p.2)]))

/-- The descriptor the loop collects for a reply: its result payload
stamped with the sender address under `"_ip"`. -/
def stampReply (p : String × JObj) : JObj :=
  objSet p.2 "_ip" (.str p.1)

/-- The payload of the last reply received from address `a`. -/
def lastReplyFrom (rs : List (String × JObj)) (a : String) : Option JObj :=
  (rs.reverse.find? (fun q => q.1 == a)).map Prod.snd

/-- Number of list elements that already occurred earlier in the list
(or in `seen`): the count `M` of replies sharing a sender address with
an earlier reply. -/
def dupCount : List String → List String → Nat
  | _, [] => 0
  | seen, k :: ks =>
      (if k ∈ seen then 1 else 0) +
        dupCount (if k ∈ seen then seen else seen ++ [k]) ks

/-- First-match lookup in the dedup dict. -/
def lookupD : List (String × JObj) → String → Option JObj
  | [], _ => none
  | (k, v) :: rest, key => if k = key then some v else lookupD rest key

/-- Folding a whole association list into a Python dict. -/
def insertAll (d : List (String × JObj)) (l : List (String × JObj)) :
    List (String × JObj) :=
  l.foldl (fun d p => dictInsert d p.1 p.2) d

/-- The dedup key of a stamped reply is its sender address. -/
theorem ipOf_stampReply (p : String × JObj) : ipOf (stampReply p) = p.1 := by
  unfold ipOf stampReply
  rw [lookupJ_objSet_self]

/-- Running the receive loop on a list of valid replies collects their
stamped descriptors in arrival order. -/
theorem discoverLoop_replies (rs : List (String × JObj)) (found : List JObj)
    (hvalid : ∀ p ∈ rs, p.2 ≠ ([] : JObj)) :
    discoverLoop (rs.map replyEvent) found = .ok (found ++ rs.map stampReply) := by
  induction rs generalizing found with
  | nil => simp [discoverLoop]
  | cons p rs ih =>
      obtain ⟨ip, fs⟩ := p
      have hfs : fs ≠ [] := hvalid (ip, fs) (by simp)
      match fs, hfs with
      | f0 :: fs', _ =>
        have hstep :
            discoverLoop ((((ip, f0 :: fs') :: rs).map replyEvent)) found =
              discoverLoop (rs.map replyEvent)
                (found ++ [stampReply (ip, f0 :: fs')]) := by
          simp [replyEvent, discoverLoop, processDatagram, lookupJ, truthy,
            stampReply]
        rw [hstep, ih _ (fun q hq => hvalid q (by simp [hq]))]
        simp

/-- Keys after a Python dict insertion. -/
theorem dictInsert_keys (d : List (String × JObj)) (k : String) (v : JObj) :
    (dictInsert d k v).map Prod.fst =
      if k ∈ d.map Prod.fst then d.map Prod.fst
      else d.map Prod.fst ++ [k] := by
  induction d with
  | nil => simp [dictInsert]
  | cons p rest ih =>
      obtain ⟨k0, v0⟩ := p
      by_cases h : k0 = k
      · simp [dictInsert, h]
      · have : (k ∈ k0 :: rest.map Prod.fst) ↔ k ∈ rest.map Prod.fst := by
          simp [List.mem_cons, Ne.symm h]
        by_cases hm : k ∈ rest.map Prod.fst
        · simp [dictInsert, h, ih, hm, this]
        · simp [dictInsert, h, ih, hm, this]

/-- Size after a Python dict insertion. -/
theorem dictInsert_length (d : List (String × JObj)) (k : String) (v : JObj) :
    (dictInsert d k v).length =
      if k ∈ d.map Prod.fst then d.length else d.length + 1 := by
  induction d with
  | nil => simp [dictInsert]
  | cons p rest ih =>
      obtain ⟨k0, v0⟩ := p
      by_cases h : k0 = k
      · simp [dictInsert, h]
      · have hiff : (k ∈ k0 :: rest.map Prod.fst) ↔ k ∈ rest.map Prod.fst := by
          simp [List.mem_cons, Ne.symm h]
        by_cases hm : k ∈ rest.map Prod.fst
        · simp [dictInsert, h, ih, hm, hiff]
        · simp [dictInsert, h, ih, hm, hiff]

/-- Lookup after a Python dict insertion. -/
theorem dictInsert_lookupD (d : List (String × JObj)) (k : String) (v : JObj)
    (a : String) :
    lookupD (dictInsert d k v) a = if a = k then some v else lookupD d a := by
  induction d with
  | nil =>
      by_cases h : a = k
      · simp [dictInsert, lookupD, h]
      · simp [dictInsert, lookupD, h, Ne.symm h]
  | cons p rest ih =>
      obtain ⟨k0, v0⟩ := p
      by_cases h : k0 = k
      · subst h
        by_cases ha : a = k0
        · simp [dictInsert, lookupD, ha]
        · simp [dictInsert, lookupD, ha, Ne.symm ha]
      · by_cases ha : k0 = a
        · have hak : ¬a = k := by
            intro hh; exact h (ha.trans hh)
          simp [dictInsert, lookupD, h, ha, hak]
        · simp [dictInsert, lookupD, h, ha, ih]

/-- `dupCount` only depends on the membership content of `seen`. -/
theorem dupCount_congr (ks : List String) :
    ∀ s1 s2 : List String, (∀ a, a ∈ s1 ↔ a ∈ s2) →
      dupCount s1 ks = dupCount s2 ks := by
  induction ks with
  | nil => intro s1 s2 _; rfl
  | cons k ks ih =>
      intro s1 s2 hset
      by_cases h1 : k ∈ s1
      · have h2 : k ∈ s2 := (hset k).mp h1
        simp only [dupCount, if_pos h1, if_pos h2]
        exact congrArg (1 + ·) (ih s1 s2 hset)
      · have h2 : k ∉ s2 := fun hh => h1 ((hset k).mpr hh)
        simp only [dupCount, if_neg h1, if_neg h2]
        refine congrArg (0 + ·) (ih (s1 ++ [k]) (s2 ++ [k]) ?_)
        intro a
        simp [List.mem_append, hset a]

/-- A duplicate count never exceeds the list length. -/
theorem dupCount_le (ks : List String) :
    ∀ seen, dupCount seen ks ≤ ks.length := by
  induction ks with
  | nil => intro seen; simp [dupCount]
  | cons k ks ih =>
      intro seen
      by_cases h : k ∈ seen
      · have := ih seen
        simp only [dupCount, if_pos h, List.length_cons]
        omega
      · have := ih (seen ++ [k])
        simp only [dupCount, if_neg h, List.length_cons]
        omega

/-- Size of the dict built by inserting a list: list length minus the
number of key duplicates. -/
theorem insertAll_length (l : List (String × JObj)) :
    ∀ d, (insertAll d l).length =
      d.length + l.length - dupCount (d.map Prod.fst) (l.map Prod.fst) := by
  induction l with
  | nil => intro d; simp [insertAll, dupCount]
  | cons p l ih =>
      intro d
      have hstep : insertAll d (p :: l) = insertAll (dictInsert d p.1 p.2) l := rfl
      rw [hstep, ih]
      rw [dictInsert_length, dictInsert_keys]
      by_cases hk : p.1 ∈ d.map Prod.fst
      · rw [if_pos hk, if_pos hk]
        simp only [List.map_cons, dupCount, if_pos hk, List.length_cons]
        omega
      · rw [if_neg hk, if_neg hk]
        simp only [List.map_cons, dupCount, if_neg hk, List.length_cons]
        omega

/-- Lookup in the dict built by inserting a list: the most recently
inserted binding of a key wins. -/
theorem insertAll_lookupD (l : List (String × JObj)) :
    ∀ d a, lookupD (insertAll d l) a =
      ((l.reverse.find? (fun q => q.1 == a)).map Prod.snd).or (lookupD d a) := by
  induction l with
  | nil => intro d a; simp [insertAll]
  | cons p l ih =>
      intro d a
      have hstep : insertAll d (p :: l) = insertAll (dictInsert d p.1 p.2) l := rfl
      rw [hstep, ih, dictInsert_lookupD]
      rw [List.reverse_cons, List.find?_append]
      cases hf : List.find? (fun q => q.1 == a) l.reverse with
      | some q => simp [hf]
      | none =>
          simp only [hf, Option.map_none', Option.none_or]
          by_cases h : p.1 = a
          · simp [List.find?, h]
          · have hb : (p.1 == a) = false := by
              simp [h]
            simp [List.find?, hb, Ne.symm h]

/-- A value looked up in the dict is among the dict's values. -/
theorem lookupD_mem_values (d : List (String × JObj)) (a : String)
    (v : JObj) (h : lookupD d a = some v) : v ∈ d.map Prod.snd := by
  induction d with
  | nil => exact absurd h (by simp [lookupD])
  | cons p rest ih =>
      obtain ⟨k0, v0⟩ := p
      by_cases hk : k0 = a
      · simp only [lookupD, if_pos hk, Option.some.injEq] at h
        simp [h]
      · simp only [lookupD, if_neg hk] at h
        simp [ih h]

/-- The `discover` dedup fold over stamped replies is `insertAll` over
the address-keyed replies. -/
theorem fold_stamp_insertAll (rs : List (String × JObj)) :
    ∀ d, (rs.map stampReply).foldl (fun d b => dictInsert d (ipOf b) b) d =
      insertAll d (rs.map (fun p => (p.1, stampReply p))) := by
  induction rs with
  | nil => intro d; rfl
  | cons p rs ih =>
      intro d
      simp only [List.map_cons, List.foldl_cons, ipOf_stampReply]
      exact ih _

/-- Keys of the address-keyed reply list are the reply addresses. -/
theorem keyed_map_fst (rs : List (String × JObj)) :
    (rs.map (fun p => (p.1, stampReply p))).map Prod.fst = rs.map Prod.fst := by
  induction rs with
  | nil => rfl
  | cons p rs ih => simp [ih]

/-- C7 (amended): for `N` valid discovery reply datagrams of which `M`
share a sender address with an earlier reply, `discover` returns exactly
`N − M` descriptors (one per distinct address), and for each address the
returned descriptor's fields equal those of the last reply received from
that address, stamped with the address under `"_ip"`. -/
theorem discover_dedupe_last_wins (rs : List (String × JObj))
    (hvalid : ∀ p ∈ rs, p.2 ≠ ([] : JObj)) :
    ∃ outs, discoverModel (rs.map replyEvent) = .ok outs ∧
      outs.length = rs.length - dupCount [] (rs.map Prod.fst) ∧
      ∀ a fs, lastReplyFrom rs a = some fs → stampReply (a, fs) ∈ outs := by
  refine ⟨dedupeByIp (rs.map stampReply), ?_, ?_, ?_⟩
  · have h := discoverLoop_replies rs [] hvalid
    simp only [discoverModel, h, List.nil_append]
  · unfold dedupeByIp
    rw [fold_stamp_insertAll, List.length_map, insertAll_length, keyed_map_fst]
    simp
  · intro a fs hlast
    unfold dedupeByIp
    rw [fold_stamp_insertAll]
    unfold lastReplyFrom at hlast
    obtain ⟨q, hq, hfs⟩ : ∃ q, rs.reverse.find? (fun q => q.1 == a) = some q ∧
        q.2 = fs := by
      cases hf : rs.reverse.find? (fun q => q.1 == a) with
      | none => rw [hf] at hlast; exact absurd hlast (by simp)
      | some q =>
          refine ⟨q, rfl, ?_⟩
          rw [hf] at hlast
          simpa using hlast
    have hqa : q.1 = a := by
      have hb := List.find?_some hq
      simpa using hb
    have hlook :
        lookupD (insertAll [] (rs.map fun p => (p.1, stampReply p))) a =
          some (stampReply q) := by
      rw [insertAll_lookupD]
      rw [show (rs.map fun p => (p.1, stampReply p)).reverse =
            rs.reverse.map (fun p => (p.1, stampReply p)) from by
          rw [List.map_reverse]]
      rw [List.find?_map]
      have hcomp :
          List.find? ((fun q : String × JObj => q.1 == a) ∘
            fun p : String × JObj => (p.1, stampReply p)) rs.reverse =
            some q := by
        simpa [Function.comp] using hq
      rw [hcomp]
      rfl
    have hmem := lookupD_mem_values _ _ _ hlook
    have hrw : stampReply q = stampReply (a, fs) := by
      obtain ⟨q1, q2⟩ := q
      simp only at hqa hfs
      rw [hqa, hfs]
    rwa [hrw] at hmem

/-- C7 witness: three valid replies, two of them from `10.0.0.7`; the
result has `3 − 1 = 2` descriptors and the later `10.0.0.7` payload
wins. -/
theorem discover_dedupe_last_wins_witness :
    ∃ outs, discoverModel
        (([("10.0.0.7", [("mac", JVal.str "aa")]),
           ("10.0.0.8", [("mac", JVal.str "bb")]),
           ("10.0.0.7", [("mac", JVal.str "cc")])] :
            List (String × JObj)).map replyEvent) = .ok outs ∧
      outs.length =
        ([("10.0.0.7", [("mac", JVal.str "aa")]),
          ("10.0.0.8", [("mac", JVal.str "bb")]),
          ("10.0.0.7", [("mac", JVal.str "cc")])] :
            List (String × JObj)).length -
          dupCount []
            (([("10.0.0.7", [("mac", JVal.str "aa")]),
               ("10.0.0.8", [("mac", JVal.str "bb")]),
               ("10.0.0.7", [("mac", JVal.str "cc")])] :
                List (String × JObj)).map Prod.fst) ∧
      ∀ a fs,
        lastReplyFrom
          ([("10.0.0.7", [("mac", JVal.str "aa")]),
            ("10.0.0.8", [("mac", JVal.str "bb")]),
            ("10.0.0.7", [("mac", JVal.str "cc")])] :
              List (String × JObj)) a = some fs →
        stampReply (a, fs) ∈ outs :=
  discover_dedupe_last_wins _ (by
    intro p hp
    simp only [List.mem_cons, List.not_mem_nil, or_false] at hp
    rcases hp with h | h | h <;> subst h <;> simp)

/-- C7 counterexample to the claim as stated: two valid replies
(`N = 2`), the second sharing its sender address with the first
(`M = 1`).  The claim predicts `N − M + 1 = 2` descriptors, but
`discover` returns one (the last reply wins). -/
theorem discover_dedupe_count_cex :
    discoverModel
        (([("10.0.0.7", [("mac", JVal.str "aa")]),
           ("10.0.0.7", [("mac", JVal.str "bb")])] :
            List (String × JObj)).map replyEvent) =
      .ok [[("mac", JVal.str "bb"), ("_ip", JVal.str "10.0.0.7")]] ∧
    dupCount [] ["10.0.0.7", "10.0.0.7"] = 1 ∧
    ([[("mac", JVal.str "bb"), ("_ip", JVal.str "10.0.0.7")]] :
        List JObj).length ≠ 2 - 1 + 1 := by
  refine ⟨rfl, ?_, by decide⟩
  simp [dupCount]

/-! ## Interpolation lemmas (C3-C6) -/

/-- Python `int()` of an integer value is that integer. -/
theorem pyInt_intCast (n : Int) : pyInt (n : ℝ) = n := by
  unfold pyInt
  by_cases h : (0:ℝ) ≤ (n:ℝ)
  · rw [if_pos h, Int.floor_intCast]
  · rw [if_neg h, Int.ceil_intCast]

/-- Truncation toward zero is monotone. -/
theorem pyInt_mono {x y : ℝ} (h : x ≤ y) : pyInt x ≤ pyInt y := by
  unfold pyInt
  by_cases hx : 0 ≤ x
  · rw [if_pos hx, if_pos (le_trans hx h)]
    exact Int.floor_mono h
  · rw [if_neg hx]
    by_cases hy : 0 ≤ y
    · rw [if_pos hy]
      have h1 : ⌈x⌉ ≤ (0:ℤ) := Int.ceil_le.mpr (by simpa using le_of_not_le hx)
      have h2 : (0:ℤ) ≤ ⌊y⌋ := Int.floor_nonneg.mpr hy
      omega
    · rw [if_neg hy]
      exact Int.ceil_mono h

/-- The easing weight at step 0 is 0. -/
theorem eased_zero (N : Nat) : eased N 0 = 0 := by
  unfold eased
  norm_num

/-- The easing weight at the final step is 1. -/
theorem eased_last (N : Nat) (hN : 0 < N) : eased N N = 1 := by
  unfold eased
  rw [div_self (by exact_mod_cast hN.ne' : (N:ℝ) ≠ 0), mul_one, Real.cos_pi]
  norm_num

/-- The easing weight is non-decreasing over the step range. -/
theorem eased_mono (N i j : Nat) (hN : 0 < N) (hij : i ≤ j) (hj : j ≤ N) :
    eased N i ≤ eased N j := by
  unfold eased
  have hNpos : (0:ℝ) < N := by exact_mod_cast hN
  have h1 : (0:ℝ) ≤ Real.pi * ((i:ℝ) / (N:ℝ)) := by positivity
  have h2 : Real.pi * ((j:ℝ) / (N:ℝ)) ≤ Real.pi := by
    have hle : (j:ℝ) / (N:ℝ) ≤ 1 := by
      rw [div_le_one hNpos]
      exact_mod_cast hj
    calc Real.pi * ((j:ℝ) / (N:ℝ)) ≤ Real.pi * 1 :=
          mul_le_mul_of_nonneg_left hle Real.pi_pos.le
      _ = Real.pi := mul_one _
  have h3 : Real.pi * ((i:ℝ) / (N:ℝ)) ≤ Real.pi * ((j:ℝ) / (N:ℝ)) := by
    apply mul_le_mul_of_nonneg_left _ Real.pi_pos.le
    apply div_le_div_of_nonneg_right ?_ hNpos.le
    exact_mod_cast hij
  have hcos := Real.cos_le_cos_of_nonneg_of_le_pi h1 h2 h3
  linarith

/-- At step 0 every field is its start value. -/
theorem interpField_zero (s e : Int) (N : Nat) : interpField s e N 0 = s := by
  unfold interpField
  rw [eased_zero, mul_zero, add_zero]
  exact pyInt_intCast s

/-- At the final step every field is its end value. -/
theorem interpField_last (s e : Int) (N : Nat) (hN : 0 < N) :
    interpField s e N N = e := by
  unfold interpField
  rw [eased_last N hN]
  rw [show (s:ℝ) + ((e:ℝ) - (s:ℝ)) * 1 = (e:ℝ) by ring]
  exact pyInt_intCast e

/-- A field whose start and end coincide never moves. -/
theorem interpField_same (s : Int) (N i : Nat) : interpField s s N i = s := by
  unfold interpField
  rw [show (s:ℝ) + ((s:ℝ) - (s:ℝ)) * eased N i = (s:ℝ) by ring]
  exact pyInt_intCast s

/-- Upward fades are non-decreasing step to step. -/
theorem interpField_mono_le (s e : Int) (N i j : Nat) (hN : 0 < N)
    (hij : i ≤ j) (hj : j ≤ N) (hse : s ≤ e) :
    interpField s e N i ≤ interpField s e N j := by
  unfold interpField
  apply pyInt_mono
  have hw := eased_mono N i j hN hij hj
  have hd : (0:ℝ) ≤ (e:ℝ) - (s:ℝ) := by
    have : (s:ℝ) ≤ (e:ℝ) := by exact_mod_cast hse
    linarith
  nlinarith

/-- Downward fades are non-increasing step to step. -/
theorem interpField_mono_ge (s e : Int) (N i j : Nat) (hN : 0 < N)
    (hij : i ≤ j) (hj : j ≤ N) (hse : e ≤ s) :
    interpField s e N j ≤ interpField s e N i := by
  unfold interpField
  apply pyInt_mono
  have hw := eased_mono N i j hN hij hj
  have hd : (e:ℝ) - (s:ℝ) ≤ 0 := by
    have : (e:ℝ) ≤ (s:ℝ) := by exact_mod_cast hse
    linarith
  nlinarith

/-- Projection of the interpolated state at a named field. -/
theorem stepPilot_fld (start endp : Pilot) (N i : Nat) (f : FadeField) :
    (stepPilot start endp N i).fld f =
      interpField (start.fld f) (endp.fld f) N i := by
  cases f <;> rfl

/-- Projection of the resolved endpoint at a named field. -/
theorem resolveEnd_fld (target_params : List (String × Int)) (start : Pilot)
    (f : FadeField) :
    (resolveEnd target_params start).fld f =
      (target_params.lookup f.key).getD (start.fld f) := by
  cases f <;> rfl

/-- Bounds on `√2` used for the concrete step evaluation. -/
theorem sqrt_two_bounds : (1.4:ℝ) < Real.sqrt 2 ∧ Real.sqrt 2 < 1.45 := by
  have hsq : Real.sqrt 2 ^ 2 = 2 := Real.sq_sqrt (by norm_num)
  have hnn : (0:ℝ) ≤ Real.sqrt 2 := Real.sqrt_nonneg 2
  constructor
  · nlinarith
  · nlinarith

/-- The easing weight one quarter of the way in. -/
theorem eased_4_1 : eased 4 1 = 1 / 2 - Real.sqrt 2 / 4 := by
  unfold eased
  have h : Real.pi * (((1:Nat):ℝ) / ((4:Nat):ℝ)) = Real.pi / 4 := by
    push_cast
    ring
  rw [h, Real.cos_pi_div_four]
  ring

/-- The concrete interpolated value at start 60, end 100, step 1 of 4:
the code's `int()` truncation yields 65. -/
theorem interpField_60_100_4_1 : interpField 60 100 4 1 = 65 := by
  unfold interpField
  rw [eased_4_1]
  have hval : ((60:Int):ℝ) + (((100:Int):ℝ) - ((60:Int):ℝ)) *
      (1 / 2 - Real.sqrt 2 / 4) = 80 - 10 * Real.sqrt 2 := by
    push_cast
    ring
  rw [hval]
  obtain ⟨hlo, hhi⟩ := sqrt_two_bounds
  unfold pyInt
  rw [if_pos (by nlinarith)]
  rw [Int.floor_eq_iff]
  constructor
  · push_cast
    nlinarith
  · push_cast
    nlinarith

/-- The same value under the spec's `round` formula is 66. -/
theorem roundField_60_100_4_1 :
    round (((60:Int):ℝ) + (((100:Int):ℝ) - ((60:Int):ℝ)) * eased 4 1) = 66 := by
  rw [eased_4_1]
  have hval : ((60:Int):ℝ) + (((100:Int):ℝ) - ((60:Int):ℝ)) *
      (1 / 2 - Real.sqrt 2 / 4) = 80 - 10 * Real.sqrt 2 := by
    push_cast
    ring
  rw [hval]
  obtain ⟨hlo, hhi⟩ := sqrt_two_bounds
  rw [round_eq, Int.floor_eq_iff]
  constructor
  · push_cast
    nlinarith
  · push_cast
    nlinarith

/-! ## C3: per-step interpolation formula -/

/-- C3 counterexample: for the fade from 60 to 100 with `steps = 4`, at
step `i = 1` the code sends `int(60 + 40·w) = ⌊80 − 10√2⌋ = 65`, while
the claimed `round(start + (end − start)·w)` is 66: the sent value is
not the rounded value. -/
theorem step_value_not_round :
    interpField 60 100 4 1 = 65 ∧
    round (((60:Int):ℝ) + (((100:Int):ℝ) - ((60:Int):ℝ)) * eased 4 1) = 66 ∧
    (interpField 60 100 4 1 : ℤ) ≠
      round (((60:Int):ℝ) + (((100:Int):ℝ) - ((60:Int):ℝ)) * eased 4 1) := by
  refine ⟨interpField_60_100_4_1, roundField_60_100_4_1, ?_⟩
  rw [interpField_60_100_4_1, roundField_60_100_4_1]
  decide

/-- C3 (amended): for every field and step index, the value sent at
step `i` equals the truncation toward zero (Python `int()`) of
`start + (end − start) · w` with `w = 0.5 − 0.5·cos(π·i/N)` — not its
rounding, from which it can differ by one. -/
theorem step_value_is_truncation (f : FadeField) (start endp : Pilot)
    (N i : Nat) :
    (stepPilot start endp N i).fld f =
      pyInt ((start.fld f : ℝ) + ((endp.fld f : ℝ) - (start.fld f : ℝ)) *
        (1 / 2 - 1 / 2 * Real.cos (Real.pi * ((i:ℝ) / (N:ℝ))))) := by
  rw [stepPilot_fld]
  rfl

/-! ## C4: endpoint correctness -/

/-- C4: step 0 reproduces the resolved baseline exactly (hence in
particular within rounding), and the final step reproduces the resolved
target exactly, in every field. -/
theorem fade_endpoints (start endp : Pilot) (N : Nat) (hN : 0 < N) :
    stepPilot start endp N 0 = start ∧ stepPilot start endp N N = endp := by
  constructor
  · cases start
    cases endp
    simp [stepPilot, interpField_zero]
  · cases start
    cases endp
    simp [stepPilot, interpField_last _ _ _ hN]

/-- C4 witness at a concrete plan: baseline (60, 3500, 0, 0, 0), target
(100, 6500, 0, 0, 0), 4 steps. -/
theorem fade_endpoints_witness :
    stepPilot ⟨60, 3500, 0, 0, 0⟩ ⟨100, 6500, 0, 0, 0⟩ 4 0 =
        (⟨60, 3500, 0, 0, 0⟩ : Pilot) ∧
    stepPilot ⟨60, 3500, 0, 0, 0⟩ ⟨100, 6500, 0, 0, 0⟩ 4 4 =
        (⟨100, 6500, 0, 0, 0⟩ : Pilot) :=
  fade_endpoints ⟨60, 3500, 0, 0, 0⟩ ⟨100, 6500, 0, 0, 0⟩ 4 (by decide)

/-! ## C5: monotonicity -/

/-- C5: for every field, the per-step values are monotonically
non-decreasing when baseline ≤ target and non-increasing when
baseline ≥ target, over step indices `i ≤ j ≤ N`. -/
theorem fade_monotone (f : FadeField) (start endp : Pilot) (N i j : Nat)
    (hN : 0 < N) (hij : i ≤ j) (hj : j ≤ N) :
    (start.fld f ≤ endp.fld f →
      (stepPilot start endp N i).fld f ≤ (stepPilot start endp N j).fld f) ∧
    (endp.fld f ≤ start.fld f →
      (stepPilot start endp N j).fld f ≤ (stepPilot start endp N i).fld f) := by
  constructor
  · intro hse
    rw [stepPilot_fld, stepPilot_fld]
    exact interpField_mono_le _ _ _ _ _ hN hij hj hse
  · intro hse
    rw [stepPilot_fld, stepPilot_fld]
    exact interpField_mono_ge _ _ _ _ _ hN hij hj hse

/-- C5 witness: dimming 60 → 100 over 4 steps, steps 1 and 3. -/
theorem fade_monotone_witness :
    ((⟨60, 3500, 0, 0, 0⟩ : Pilot).fld .dimming ≤
        (⟨100, 6500, 0, 0, 0⟩ : Pilot).fld .dimming →
      (stepPilot ⟨60, 3500, 0, 0, 0⟩ ⟨100, 6500, 0, 0, 0⟩ 4 1).fld .dimming ≤
        (stepPilot ⟨60, 3500, 0, 0, 0⟩ ⟨100, 6500, 0, 0, 0⟩ 4 3).fld .dimming) ∧
    ((⟨100, 6500, 0, 0, 0⟩ : Pilot).fld .dimming ≤
        (⟨60, 3500, 0, 0, 0⟩ : Pilot).fld .dimming →
      (stepPilot ⟨60, 3500, 0, 0, 0⟩ ⟨100, 6500, 0, 0, 0⟩ 4 3).fld .dimming ≤
        (stepPilot ⟨60, 3500, 0, 0, 0⟩ ⟨100, 6500, 0, 0, 0⟩ 4 1).fld .dimming) :=
  fade_monotone .dimming ⟨60, 3500, 0, 0, 0⟩ ⟨100, 6500, 0, 0, 0⟩ 4 1 3
    (by decide) (by decide) (by decide)

/-! ## C6: unspecified-field stability -/

/-- C6: a field missing from the fade target resolves its endpoint to
the baseline value, and the value sent for it equals the baseline at
every step of the transition. -/
theorem unspecified_field_stable (f : FadeField)
    (target_params : List (String × Int)) (start : Pilot) (N i : Nat)
    (h : target_params.lookup f.key = none) :
    (resolveEnd target_params start).fld f = start.fld f ∧
    (stepPilot start (resolveEnd target_params start) N i).fld f =
      start.fld f := by
  have hend : (resolveEnd target_params start).fld f = start.fld f := by
    rw [resolveEnd_fld, h]
    rfl
  refine ⟨hend, ?_⟩
  rw [stepPilot_fld, hend]
  exact interpField_same _ _ _

/-- C6 witness: a target specifying only `dimming = 80` leaves `temp`
at baseline at step 2 of 4. -/
theorem unspecified_field_stable_witness :
    (resolveEnd [("dimming", 80)] ⟨60, 3500, 0, 0, 0⟩).fld .temp =
        (⟨60, 3500, 0, 0, 0⟩ : Pilot).fld .temp ∧
    (stepPilot ⟨60, 3500, 0, 0, 0⟩
        (resolveEnd [("dimming", 80)] ⟨60, 3500, 0, 0, 0⟩) 4 2).fld .temp =
      (⟨60, 3500, 0, 0, 0⟩ : Pilot).fld .temp :=
  unspecified_field_stable .temp [("dimming", 80)] ⟨60, 3500, 0, 0, 0⟩ 4 2
    (by decide)

/-! ## C8: baseline resolution fallback -/

/-- Each resolved baseline field is the outcome of its own
`cur_pilot.get(key, cached)` call. -/
theorem resolveStart_fields (cache : Pilot) (pf : JObj) (p : Pilot)
    (hok : resolveStart (some (.obj [("result", .obj pf)])) cache = .ok p) :
    ∀ f : FadeField, pilotField pf f.key (cache.fld f) = .ok (p.fld f) := by
  have hok2 :
      (match pilotField pf "dimming" cache.dimming with
        | .error e => (.error e : Except String Pilot)
        | .ok d =>
        match pilotField pf "temp" cache.temp with
        | .error e => .error e
        | .ok t =>
        match pilotField pf "r" cache.r with
        | .error e => .error e
        | .ok rr =>
        match pilotField pf "g" cache.g with
        | .error e => .error e
        | .ok gg =>
        match pilotField pf "b" cache.b with
        | .error e => .error e
        | .ok bb => .ok ⟨d, t, rr, gg, bb⟩) = .ok p := hok
  split at hok2
  · exact absurd hok2 (by simp)
  · split at hok2
    · exact absurd hok2 (by simp)
    · split at hok2
      · exact absurd hok2 (by simp)
      · split at hok2
        · exact absurd hok2 (by simp)
        · split at hok2
          · exact absurd hok2 (by simp)
          · rw [Except.ok.injEq] at hok2
            subst hok2
            intro f
            cases f <;> assumption

/-- C8: when the pre-fade `getPilot` query gets no reply, the baseline
is the locally cached state for every field and the resolution succeeds
(the fade proceeds); when a reply arrives, each device-reported field
takes precedence over the cache and each absent field falls back to the
cache. -/
theorem baseline_fallback (cache : Pilot) (pf : JObj) (p : Pilot)
    (hok : resolveStart (some (.obj [("result", .obj pf)])) cache = .ok p) :
    resolveStart none cache = .ok cache ∧
    ∀ f : FadeField,
      (∀ n : Int, lookupJ pf f.key = some (.num n) → p.fld f = n) ∧
      (lookupJ pf f.key = none → p.fld f = cache.fld f) := by
  refine ⟨rfl, ?_⟩
  intro f
  have hall := resolveStart_fields cache pf p hok f
  unfold pilotField at hall
  constructor
  · intro n hn
    rw [hn] at hall
    simp only [Except.ok.injEq] at hall
    exact hall.symm
  · intro hn
    rw [hn] at hall
    simp only [Except.ok.injEq] at hall
    exact hall.symm

/-- C8 witness: the device reports only `dimming = 42`; the resolved
baseline takes 42 for dimming and cached values elsewhere, and with no
reply at all the baseline is the full cached state. -/
theorem baseline_fallback_witness :
    resolveStart none ⟨60, 3500, 10, 20, 30⟩ =
        .ok (⟨60, 3500, 10, 20, 30⟩ : Pilot) ∧
    ∀ f : FadeField,
      (∀ n : Int, lookupJ [("dimming", .num 42)] f.key = some (.num n) →
        (⟨42, 3500, 10, 20, 30⟩ : Pilot).fld f = n) ∧
      (lookupJ [("dimming", .num 42)] f.key = none →
        (⟨42, 3500, 10, 20, 30⟩ : Pilot).fld f =
          (⟨60, 3500, 10, 20, 30⟩ : Pilot).fld f) :=
  baseline_fallback ⟨60, 3500, 10, 20, 30⟩ [("dimming", .num 42)]
    ⟨42, 3500, 10, 20, 30⟩ rfl

/-! ## C9: interval and step-count schedule -/

/-- Unfolding the timer chain from step `i` at time `t`: the remaining
steps fire in order, one `interval` apart. -/
theorem stepChain_eq (N interval : Nat) :
    ∀ d i t, i ≤ N → N - i = d →
      stepChain N interval i t =
        (List.range (N + 1 - i)).map (fun k => (i + k, t + k * interval)) := by
  intro d
  induction d with
  | zero =>
      intro i t hi hd
      have hiN : i = N := by omega
      subst hiN
      rw [stepChain]
      simp [List.range_succ]
  | succ d ih =>
      intro i t hi hd
      have hlt : i < N := by omega
      rw [stepChain, dif_pos hlt, ih (i + 1) (t + interval) (by omega) (by omega)]
      have hN1 : N + 1 - i = (N + 1 - (i + 1)) + 1 := by omega
      rw [hN1, List.range_succ_eq_map]
      simp only [List.map_cons, List.map_map]
      refine congrArg₂ List.cons (by simp) ?_
      refine List.map_congr_left ?_
      intro k _
      simp only [Function.comp]
      refine congrArg₂ Prod.mk (by omega) (by rw [Nat.succ_mul]; ring)

/-- An unpreempted fade issues steps `0 … N`, step `k` at time
`k · interval`. -/
theorem fadeRun_eq (N interval : Nat) :
    fadeRun N interval =
      (List.range (N + 1)).map (fun k => (k, k * interval)) := by
  unfold fadeRun
  rw [stepChain_eq N interval N 0 0 (Nat.zero_le N) (Nat.sub_zero N)]
  simp

/-- C9: the inter-step interval is `max(1, duration // steps)`, and an
unpreempted fade issues exactly `N + 1` steps — step `k` firing
`interval` after step `k−1`, i.e. at time `k · interval`. -/
theorem fade_schedule_shape (d N : Nat) (_hN : 0 < N) :
    fadeInterval d N = max 1 (d / N) ∧
    (fadeRun N (fadeInterval d N)).length = N + 1 ∧
    fadeRun N (fadeInterval d N) =
      (List.range (N + 1)).map (fun k => (k, k * fadeInterval d N)) := by
  refine ⟨rfl, ?_, fadeRun_eq _ _⟩
  rw [fadeRun_eq]
  simp

/-- C9 witness: the default fade of 1000 ms over 20 steps has interval
50 ms and issues 21 steps at times 0, 50, …, 1000. -/
theorem fade_schedule_shape_witness :
    fadeInterval 1000 20 = max 1 (1000 / 20) ∧
    (fadeRun 20 (fadeInterval 1000 20)).length = 20 + 1 ∧
    fadeRun 20 (fadeInterval 1000 20) =
      (List.range (20 + 1)).map (fun k => (k, k * fadeInterval 1000 20)) :=
  fade_schedule_shape 1000 20 (by decide)

/-! ## C1: preemption -/

/-- Invariant view of states reached after a fade call for plan `p`:
well-formed timer state, every pending timer belongs to plan `p`, and
every logged send either predates the call (is in `S`) or belongs to
plan `p`. -/
def GoodState (p : Nat) (S : List (Nat × Nat)) (s : TkState) : Prop :=
  TkInv s ∧ (∀ jb ∈ s.pending, jb.plan = p) ∧
    (∀ e ∈ s.sent, e ∈ S ∨ e.1 = p)

/-- Cancelling the tracked timer empties the pending set of a
well-formed state and touches neither the send log nor anything else
observable by steps. -/
theorem cancelPending_empties (s : TkState) (h : TkInv s) :
    (cancelPending s).pending = [] ∧ (cancelPending s).sent = s.sent := by
  obtain ⟨pend, fj, nid, sl⟩ := s
  match pend, h with
  | [], _ =>
      unfold cancelPending
      cases fj <;> simp
  | [jb], h =>
      have hfj : fj = some jb.id := h
      subst hfj
      unfold cancelPending
      simp
  | _ :: _ :: _, h => exact h.elim

/-- Running a step body from a state with no pending timers yields a
well-formed state whose pending timers (at most the next step) belong
to the running plan, and appends exactly its own send. -/
theorem runStep_good (p N i : Nat) (s : TkState) (hp : s.pending = []) :
    TkInv (runStep p N i s) ∧
    (∀ jb ∈ (runStep p N i s).pending, jb.plan = p) ∧
    (runStep p N i s).sent = s.sent ++ [(p, i)] := by
  unfold runStep
  by_cases hlt : i < N
  · rw [if_pos hlt]
    refine ⟨?_, ?_, rfl⟩
    · unfold TkInv
      simp [hp]
    · intro jb hjb
      simp [hp] at hjb
      rw [hjb]
  · rw [if_neg hlt]
    refine ⟨?_, ?_, rfl⟩
    · unfold TkInv
      simp [hp]
    · intro jb hjb
      simp [hp] at hjb

/-- After `fadeTo p N`, the state is good for plan `p` relative to the
sends already logged before the call. -/
theorem fadeTo_good (s : TkState) (p N : Nat) (h : TkInv s) :
    GoodState p s.sent (fadeTo p N s) := by
  obtain ⟨hpend, hsent⟩ := cancelPending_empties s h
  obtain ⟨h1, h2, h3⟩ := runStep_good p N 0 (cancelPending s) hpend
  refine ⟨h1, h2, ?_⟩
  intro e he
  rw [fadeTo] at he
  rw [h3, hsent] at he
  rcases List.mem_append.mp he with h4 | h4
  · exact Or.inl h4
  · right
    simp at h4
    rw [h4]

/-- Delivering one due timer preserves goodness: the fired step belongs
to the current plan, and so does anything it schedules. -/
theorem fireTimer_good (p : Nat) (S : List (Nat × Nat)) (s : TkState)
    (h : GoodState p S s) : GoodState p S (fireTimer s) := by
  obtain ⟨hinv, hplans, hsent⟩ := h
  obtain ⟨pend, fj, nid, sl⟩ := s
  match pend, hinv, hplans, hsent with
  | [], hinv, hplans, hsent => exact ⟨hinv, hplans, hsent⟩
  | jb :: rest, hinv, hplans, hsent =>
      have hrest : rest = [] := by
        match rest, hinv with
        | [], _ => rfl
        | _ :: _, hinv => exact hinv.elim
      subst hrest
      have hjp : jb.plan = p := hplans jb (by simp)
      obtain ⟨h1, h2, h3⟩ :=
        runStep_good jb.plan jb.steps jb.stepIdx ⟨[], fj, nid, sl⟩ rfl
      show GoodState p S (runStep jb.plan jb.steps jb.stepIdx ⟨[], fj, nid, sl⟩)
      refine ⟨h1, ?_, ?_⟩
      · intro jb' hjb'
        rw [← hjp]
        exact h2 jb' hjb'
      · intro e he
        rw [h3] at he
        rcases List.mem_append.mp he with h4 | h4
        · exact hsent e h4
        · right
          simp at h4
          rw [h4]
          exact hjp

/-- Goodness persists over any number of event-loop turns. -/
theorem iterate_good (p : Nat) (S : List (Nat × Nat)) (s : TkState)
    (h : GoodState p S s) (k : Nat) : GoodState p S (fireTimer^[k] s) := by
  induction k with
  | zero => exact h
  | succ k ih =>
      rw [Function.iterate_succ_apply']
      exact fireTimer_good p S _ ih

/-- C1: calling `_fade_to` for a new plan `p` on a well-formed state
cancels the old plan's pending step before the new plan issues any:
when the call returns every pending timer belongs to `p`, and on every
later event-loop turn every send ever logged either predates the call
or belongs to `p` — no step of a previous plan can fire after the call,
so at most one plan ever drives the device. -/
theorem fade_preemption (s : TkState) (p N : Nat) (h : TkInv s) :
    (∀ jb ∈ (fadeTo p N s).pending, jb.plan = p) ∧
    ∀ k e, e ∈ (fireTimer^[k] (fadeTo p N s)).sent →
      e ∈ s.sent ∨ e.1 = p := by
  have hgood := fadeTo_good s p N h
  refine ⟨hgood.2.1, ?_⟩
  intro k e he
  exact (iterate_good p s.sent _ hgood k).2.2 e he

/-- C1 witness: plan 1 is mid-flight (its step-3 timer is pending, with
steps 0-2 already sent) when plan 2 preempts it; after the call and two
more event-loop turns, every pending timer and every new send belongs
to plan 2. -/
theorem fade_preemption_witness :
    (∀ jb ∈ (fadeTo 2 20 ⟨[⟨5, 1, 3, 20⟩], some 5, 6,
        [(1, 0), (1, 1), (1, 2)]⟩).pending, jb.plan = 2) ∧
    ∀ k e, e ∈ (fireTimer^[k] (fadeTo 2 20 ⟨[⟨5, 1, 3, 20⟩], some 5, 6,
        [(1, 0), (1, 1), (1, 2)]⟩)).sent →
      e ∈ [(1, 0), (1, 1), (1, 2)] ∨ e.1 = 2 :=
  fade_preemption ⟨[⟨5, 1, 3, 20⟩], some 5, 6, [(1, 0), (1, 1), (1, 2)]⟩
    2 20 rfl
